import Mathlib

/-!
Shallow embedding of the proportional-asset pallet
(src/pallets/proportional-asset/src/lib.rs).

Machine integers: `shares`, `offers`, `price` are `u64` in the source and are
modelled as `Nat` with explicit saturation at `2^64 - 1`; currency amounts are
`u128` in the mock runtime and are modelled as unbounded `Nat`, with the
`TryInto<u64>` conversion failing above `2^64 - 1`.

Storage: the two storage maps and the balances are modelled as association
lists in a `State` record; `setA` replaces the first entry with the given key
or appends a fresh one, mirroring a keyed store.

The external collaborators are modelled as the spec describes them: the
identifier derivation is an arbitrary function parameter `hash`, and the
Payment Gateway is a parameter of type `Gateway` (with `currencyTransfer`,
the plain balance-moving instantiation, used for the concrete semantics).
-/

namespace PropAsset

/-- Metadata struct for each proportional ownership (lib.rs 74-78). -/
structure MetaData where
  offers : Nat
  shares : Nat
  price  : Nat
deriving DecidableEq, Repr

/-- Largest value of a `u64`; saturating arithmetic clamps here. -/
def U64MAX : Nat := 2 ^ 64 - 1

/-- `u64::saturating_add`. -/
def satAdd (a b : Nat) : Nat := min (a + b) U64MAX

/-- `u64::saturating_sub` (Nat subtraction is already truncated). -/
def satSub (a b : Nat) : Nat := a - b

/-- `u64::saturating_mul`. -/
def satMul (a b : Nat) : Nat := min (a * b) U64MAX

/-- TOTAL_SUPPLY constant, the divisor of the asset (lib.rs 81). -/
def TOTAL_SUPPLY : Nat := 100

abbrev AccountId := Nat
abbrev Identifier := Nat

/-- The pallet error enum (lib.rs 124-149), plus the `DispatchError::Other`
produced when the currency transfer fails (lib.rs 408). -/
inductive Err where
  | AssetDoesNotExist
  | AssetAlreadyExists
  | InvalidOffers
  | IncorrectAmount
  | ConversionError
  | IncorrectSharesSelection
  | IncorrectSeller
  | NotMainOwner
  | AlreadyMainOnwer
  | NotEnoughShares
  | InvalidAccount
  | InsufficientBalance
  | TransferError
deriving DecidableEq, Repr

/-- Lookup in a keyed store modelled as an association list. -/
def lookupA {α β : Type} [DecidableEq α] : List (α × β) → α → Option β
  | [], _ => none
  | e :: es, k => if e.1 = k then some e.2 else lookupA es k

/-- Write to a keyed store: replace the first entry with the key, or append. -/
def setA {α β : Type} [DecidableEq α] : List (α × β) → α → β → List (α × β)
  | [], k, v => [(k, v)]
  | e :: es, k, v => if e.1 = k then (k, v) :: es else e :: setA es k v

/-- The pallet state: `ProportionalAssetToOwnerToMetadata` (keyed by
(identifier, account)), `ProportionalAssetToMainOwner` (keyed by identifier),
and the currency collaborator's balances. -/
structure State where
  records   : List ((Identifier × AccountId) × MetaData)
  mainOwner : List (Identifier × AccountId)
  balances  : List (AccountId × Nat)
deriving DecidableEq, Repr

/-- The empty genesis state with given balances. -/
def State.init (bal : List (AccountId × Nat)) : State :=
  { records := [], mainOwner := [], balances := bal }

/-- The empty genesis state. -/
def State.empty : State := State.init []

/-- `ProportionalAssetToOwnerToMetadata::get`. -/
def getMeta (st : State) (id : Identifier) (who : AccountId) : Option MetaData :=
  lookupA st.records (id, who)

/-- `ProportionalAssetToOwnerToMetadata::set`. -/
def setMeta (st : State) (id : Identifier) (who : AccountId) (m : MetaData) : State :=
  { st with records := setA st.records (id, who) m }

/-- `get_main_owner_by_asset` (lib.rs 480-482). -/
def get_main_owner_by_asset (st : State) (id : Identifier) : Option AccountId :=
  lookupA st.mainOwner id

/-- `set_main_owner` (lib.rs 484-486). -/
def set_main_owner (who : AccountId) (id : Identifier) (st : State) : State :=
  { st with mainOwner := setA st.mainOwner id who }

/-- `is_owner_of` (lib.rs 471-478). -/
def is_owner_of (who : AccountId) (id : Identifier) (st : State) : Bool :=
  match lookupA st.mainOwner id with
  | some owner => owner == who
  | none => false

/-- `Currency::free_balance`; an account with no entry holds 0. -/
def free_balance (st : State) (who : AccountId) : Nat :=
  (lookupA st.balances who).getD 0

/-- `balance_to_u64_option` (lib.rs 488-490): `TryInto<u64>` on a `u128`. -/
def balance_to_u64_option (input : Nat) : Option Nat :=
  if input ≤ U64MAX then some input else none

/-- The Payment Gateway interface: `transfer(source, dest, amount)` maps a
state to a new state, or fails. -/
abbrev Gateway := AccountId → AccountId → Nat → State → Option State

/-- The plain balance-moving gateway: debit the source (failing on
insufficient balance), credit the destination. -/
def currencyTransfer : Gateway := fun source dest amount st =>
  let bf := free_balance st source
  if amount ≤ bf then
    let st1 : State := { st with balances := setA st.balances source (bf - amount) }
    some { st1 with balances := setA st1.balances dest (free_balance st1 dest + amount) }
  else none

/-- `create_proportional_asset` (lib.rs 166-194). Returns the error (if any)
together with the state at the point of return. -/
def create_proportional_asset (hash : List Nat → Identifier) (who : AccountId)
    (data : List Nat) (share_price : Nat) (st : State) : Option Err × State :=
  let id := hash data
  match getMeta st id who with
  | some _ => (some Err.AssetAlreadyExists, st)
  | none =>
      let metadata : MetaData := { shares := TOTAL_SUPPLY, offers := 0, price := share_price }
      let st1 := setMeta st id who metadata
      let st2 := set_main_owner who id st1
      (none, st2)

/-- `offer_shares` (lib.rs 211-239). -/
def offer_shares (who : AccountId) (id : Identifier) (shares_to_offer : Nat)
    (share_price : Nat) (st : State) : Option Err × State :=
  if is_owner_of who id st then
    match getMeta st id who with
    | none => (some Err.InvalidAccount, st)
    | some metadata =>
        if shares_to_offer ≤ metadata.shares then
          let new_metadata : MetaData :=
            { shares := metadata.shares, offers := shares_to_offer, price := share_price }
          (none, setMeta st id who new_metadata)
        else (some Err.InvalidOffers, st)
  else (some Err.NotMainOwner, st)

/-- `transfer_shares_to_account` (lib.rs 254-319). Note the write order of the
source: the recipient's record is written first, the origin's record second,
so a transfer to oneself is overwritten by the origin update. -/
def transfer_shares_to_account (who : AccountId) (id : Identifier) (amount : Nat)
    (to_ : AccountId) (st : State) : Option Err × State :=
  match getMeta st id who with
  | none => (some Err.InvalidAccount, st)
  | some origin_metadata =>
      if amount ≤ origin_metadata.shares then
        let new_origin_shares := satSub origin_metadata.shares amount
        let st1 :=
          match getMeta st id to_ with
          | none => setMeta st id to_ { shares := amount, offers := 0, price := 0 }
          | some metadata =>
              setMeta st id to_
                { shares := satAdd metadata.shares amount,
                  offers := metadata.offers, price := metadata.price }
        let new_origin_metadata : MetaData :=
          { shares := new_origin_shares,
            offers := origin_metadata.offers, price := origin_metadata.price }
        (none, setMeta st1 id who new_origin_metadata)
      else (some Err.IncorrectSharesSelection, st)

/-- `buy_shares` (lib.rs 335-429), parameterised by the Payment Gateway. The
checks run in source order; the currency transfer runs before the two storage
writes; the buyer's new metadata starts from `{shares: 0, offers: 0, price: 0}`
and only its `shares` field is filled in (lib.rs 391-399). -/
def buy_sharesG (gw : Gateway) (who : AccountId) (id : Identifier)
    (shares_to_buy : Nat) (amount : Nat) (from_ : AccountId) (st : State) :
    Option Err × State :=
  if who = from_ then (some Err.IncorrectSeller, st)
  else if is_owner_of from_ id st then
    match getMeta st id from_ with
    | none => (some Err.InvalidAccount, st)
    | some from_metadata =>
        if shares_to_buy ≤ from_metadata.shares then
          let price := satMul from_metadata.price shares_to_buy
          match balance_to_u64_option amount with
          | none => (some Err.ConversionError, st)
          | some parsed_amount_sent =>
              if price ≤ parsed_amount_sent then
                if shares_to_buy ≤ from_metadata.shares then
                  if shares_to_buy ≤ from_metadata.offers then
                    let new_from_metadata : MetaData :=
                      { shares := satSub from_metadata.shares shares_to_buy,
                        offers := satSub from_metadata.offers shares_to_buy,
                        price := from_metadata.price }
                    let new_origin_metadata : MetaData :=
                      match getMeta st id who with
                      | none => { shares := shares_to_buy, offers := 0, price := 0 }
                      | some old_origin_metadata =>
                          { shares := satAdd old_origin_metadata.shares shares_to_buy,
                            offers := 0, price := 0 }
                    if amount ≤ free_balance st who then
                      match gw who from_ amount st with
                      | none => (some Err.TransferError, st)
                      | some st1 =>
                          let st2 := setMeta st1 id who new_origin_metadata
                          let st3 := setMeta st2 id from_ new_from_metadata
                          (none, st3)
                    else (some Err.InsufficientBalance, st)
                  else (some Err.IncorrectSharesSelection, st)
                else (some Err.IncorrectSharesSelection, st)
              else (some Err.IncorrectAmount, st)
        else (some Err.IncorrectAmount, st)
  else (some Err.IncorrectSeller, st)

/-- `buy_shares` with the concrete balance-moving gateway. -/
def buy_shares (who : AccountId) (id : Identifier) (shares_to_buy : Nat)
    (amount : Nat) (from_ : AccountId) (st : State) : Option Err × State :=
  buy_sharesG currencyTransfer who id shares_to_buy amount from_ st

/-- `claim_onwership` (lib.rs 440-462). -/
def claim_onwership (who : AccountId) (id : Identifier) (st : State) :
    Option Err × State :=
  match get_main_owner_by_asset st id with
  | none => (some Err.AssetDoesNotExist, st)
  | some asset_owner =>
      if asset_owner = who then (some Err.AlreadyMainOnwer, st)
      else
        match getMeta st id who with
        | none => (some Err.NotEnoughShares, st)
        | some origin_metadata =>
            if 50 < origin_metadata.shares then
              (none, set_main_owner who id st)
            else (some Err.NotEnoughShares, st)

/-- One dispatchable call with its arguments. -/
inductive Op where
  | create (who : AccountId) (data : List Nat) (share_price : Nat)
  | offer (who : AccountId) (id : Identifier) (shares_to_offer share_price : Nat)
  | transfer (who : AccountId) (id : Identifier) (amount : Nat) (to_ : AccountId)
  | buy (who : AccountId) (id : Identifier) (shares_to_buy amount : Nat) (from_ : AccountId)
  | claim (who : AccountId) (id : Identifier)
deriving DecidableEq, Repr

/-- Dispatch one call. -/
def apply (hash : List Nat → Identifier) (op : Op) (st : State) : Option Err × State :=
  match op with
  | .create who data p => create_proportional_asset hash who data p st
  | .offer who id s p => offer_shares who id s p st
  | .transfer who id a t => transfer_shares_to_account who id a t st
  | .buy who id s a f => buy_shares who id s a f st
  | .claim who id => claim_onwership who id st

/-- Run a sequence of calls; a failing call leaves the state as it was. -/
def run (hash : List Nat → Identifier) (st : State) (ops : List Op) : State :=
  ops.foldl (fun s op => (apply hash op s).2) st

/-- Sum of `shares` over all OwnerRecords of one identifier. -/
def sumShares (recs : List ((Identifier × AccountId) × MetaData)) (id : Identifier) : Nat :=
  ((recs.filter (fun e => e.1.1 == id)).map (fun e => e.2.shares)).sum

/-- A constant derivation function, for concrete scenarios. -/
def hashConst : List Nat → Identifier := fun _ => 0

/-- A gateway that always fails, for exercising the failure path. -/
def gwNone : Gateway := fun _ _ _ _ => none

/-- Initial balances for the end-to-end scenario: the creator (account 1)
holds 50 currency units and the buyer (account 3) holds 100. -/
def scenario0 : State := State.init [(1, 50), (3, 100)]

/-- Scenario state after `create(1, payload, price 10)`. -/
def scenario1 : State := (create_proportional_asset hashConst 1 [] 10 scenario0).2

/-- Scenario state after `offer(1, id, 5, 20)`. -/
def scenario2 : State := (offer_shares 1 0 5 20 scenario1).2

/-- Scenario state after `transfer(1, id, 50, 2)`. -/
def scenario3 : State := (transfer_shares_to_account 1 0 50 2 scenario2).2

/-- Scenario state after `buy(3, id, 2, 40, 1)`. -/
def scenario4 : State := (buy_shares 3 0 2 40 1 scenario3).2

/-- A state where account 2 is main owner with record `{offers 10, shares 10,
price 0}` and account 1 holds `{offers 1, shares 1, price 5}`. -/
def stBuyer : State :=
  { records := [((0, 2), ⟨10, 10, 0⟩), ((0, 1), ⟨1, 1, 5⟩)],
    mainOwner := [(0, 2)], balances := [] }

/-- A state where account 1 has a record but account 2 is the main owner. -/
def stNotOwner : State :=
  { records := [((0, 1), ⟨0, 10, 0⟩)], mainOwner := [(0, 2)], balances := [] }

/-- A state where account 1 is the main owner with a record of 10 shares. -/
def stOwner : State :=
  { records := [((0, 1), ⟨0, 10, 0⟩)], mainOwner := [(0, 1)], balances := [] }

/-- A state where account 2 holds 51 shares and account 1 is main owner. -/
def stClaim : State :=
  { records := [((0, 2), ⟨0, 51, 0⟩)], mainOwner := [(0, 1)], balances := [] }

/-- A state where account 2 is main owner offering 5 of 50 shares at price 20
and account 3 holds 100 currency units. -/
def stSeller : State :=
  { records := [((0, 2), ⟨5, 50, 20⟩)], mainOwner := [(0, 2)], balances := [(3, 100)] }


/-! ### Store lemmas -/

theorem lookupA_setA_self {α β : Type} [DecidableEq α] (l : List (α × β)) (k : α) (v : β) :
    lookupA (setA l k v) k = some v := by
  induction l with
  | nil => simp [setA, lookupA]
  | cons e es ih =>
      by_cases h : e.1 = k
      · simp [setA, h, lookupA]
      · simp [setA, h, lookupA, ih]

theorem lookupA_setA_ne {α β : Type} [DecidableEq α] (l : List (α × β)) (k k' : α) (v : β)
    (h : k' ≠ k) : lookupA (setA l k v) k' = lookupA l k' := by
  have h' : ¬ (k = k') := fun hk => h hk.symm
  induction l with
  | nil => simp [setA, lookupA, h']
  | cons e es ih =>
      by_cases hek : e.1 = k
      · simp [setA, hek, lookupA, h']
      · simp [setA, hek, lookupA, ih]

theorem setMeta_mainOwner (st : State) (id : Identifier) (who : AccountId) (m : MetaData) :
    (setMeta st id who m).mainOwner = st.mainOwner := rfl

theorem setMeta_balances (st : State) (id : Identifier) (who : AccountId) (m : MetaData) :
    (setMeta st id who m).balances = st.balances := rfl

theorem getMeta_setMeta_self (st : State) (id : Identifier) (who : AccountId) (m : MetaData) :
    getMeta (setMeta st id who m) id who = some m :=
  lookupA_setA_self _ _ _

theorem getMeta_setMeta_ne (st : State) (id id' : Identifier) (who who' : AccountId)
    (m : MetaData) (h : (id', who') ≠ (id, who)) :
    getMeta (setMeta st id who m) id' who' = getMeta st id' who' :=
  lookupA_setA_ne _ _ _ _ h

theorem currencyTransfer_some (source dest : AccountId) (amount : Nat) (st st' : State)
    (h : currencyTransfer source dest amount st = some st') :
    st'.records = st.records ∧ st'.mainOwner = st.mainOwner := by
  simp only [currencyTransfer] at h
  split at h
  · cases h
    exact ⟨rfl, rfl⟩
  · cases h

/-! ### Characterisation of each dispatchable -/

theorem create_eq_absent (hash : List Nat → Identifier) (who : AccountId) (data : List Nat)
    (p : Nat) (st : State) (h : getMeta st (hash data) who = none) :
    create_proportional_asset hash who data p st =
      (none, set_main_owner who (hash data) (setMeta st (hash data) who ⟨0, TOTAL_SUPPLY, p⟩)) := by
  simp only [create_proportional_asset, h]

theorem create_eq_present (hash : List Nat → Identifier) (who : AccountId) (data : List Nat)
    (p : Nat) (st : State) (m : MetaData) (h : getMeta st (hash data) who = some m) :
    create_proportional_asset hash who data p st = (some Err.AssetAlreadyExists, st) := by
  simp only [create_proportional_asset, h]

theorem create_err (hash : List Nat → Identifier) (who : AccountId) (data : List Nat)
    (p : Nat) (st st' : State) (e : Err)
    (h : create_proportional_asset hash who data p st = (some e, st')) : st' = st := by
  simp only [create_proportional_asset] at h
  split at h <;> simp_all

theorem offer_eq_not_owner (who : AccountId) (id : Identifier) (s p : Nat) (st : State)
    (h : is_owner_of who id st = false) :
    offer_shares who id s p st = (some Err.NotMainOwner, st) := by
  simp only [offer_shares, h]
  simp

theorem offer_eq_no_record (who : AccountId) (id : Identifier) (s p : Nat) (st : State)
    (h1 : is_owner_of who id st = true) (h2 : getMeta st id who = none) :
    offer_shares who id s p st = (some Err.InvalidAccount, st) := by
  simp only [offer_shares, h1, h2]
  simp

theorem offer_eq_invalid (who : AccountId) (id : Identifier) (s p : Nat) (st : State)
    (m : MetaData) (h1 : is_owner_of who id st = true) (h2 : getMeta st id who = some m)
    (h3 : m.shares < s) :
    offer_shares who id s p st = (some Err.InvalidOffers, st) := by
  simp only [offer_shares, h1, h2]
  simp [Nat.not_le.mpr h3]

theorem offer_eq_succ (who : AccountId) (id : Identifier) (s p : Nat) (st : State)
    (m : MetaData) (h1 : is_owner_of who id st = true) (h2 : getMeta st id who = some m)
    (h3 : s ≤ m.shares) :
    offer_shares who id s p st = (none, setMeta st id who ⟨s, m.shares, p⟩) := by
  simp only [offer_shares, h1, h2]
  simp [h3]

theorem offer_err (who : AccountId) (id : Identifier) (s p : Nat) (st st' : State) (e : Err)
    (h : offer_shares who id s p st = (some e, st')) : st' = st := by
  simp only [offer_shares] at h
  split at h
  · split at h
    · simp_all
    · split at h <;> simp_all
  · simp_all

theorem transfer_eq_no_record (who : AccountId) (id : Identifier) (amount : Nat)
    (to_ : AccountId) (st : State) (h : getMeta st id who = none) :
    transfer_shares_to_account who id amount to_ st = (some Err.InvalidAccount, st) := by
  simp only [transfer_shares_to_account, h]

theorem transfer_eq_toomuch (who : AccountId) (id : Identifier) (amount : Nat)
    (to_ : AccountId) (st : State) (m : MetaData) (h : getMeta st id who = some m)
    (h2 : m.shares < amount) :
    transfer_shares_to_account who id amount to_ st = (some Err.IncorrectSharesSelection, st) := by
  simp only [transfer_shares_to_account, h]
  simp [Nat.not_le.mpr h2]

theorem transfer_eq_succ_absent (who : AccountId) (id : Identifier) (amount : Nat)
    (to_ : AccountId) (st : State) (m : MetaData) (h : getMeta st id who = some m)
    (h2 : amount ≤ m.shares) (h3 : getMeta st id to_ = none) :
    transfer_shares_to_account who id amount to_ st =
      (none, setMeta (setMeta st id to_ ⟨0, amount, 0⟩) id who
        ⟨m.offers, satSub m.shares amount, m.price⟩) := by
  simp only [transfer_shares_to_account, h, h3]
  simp [h2]

theorem transfer_eq_succ_present (who : AccountId) (id : Identifier) (amount : Nat)
    (to_ : AccountId) (st : State) (m mt : MetaData) (h : getMeta st id who = some m)
    (h2 : amount ≤ m.shares) (h3 : getMeta st id to_ = some mt) :
    transfer_shares_to_account who id amount to_ st =
      (none, setMeta (setMeta st id to_ ⟨mt.offers, satAdd mt.shares amount, mt.price⟩) id who
        ⟨m.offers, satSub m.shares amount, m.price⟩) := by
  simp only [transfer_shares_to_account, h, h3]
  simp [h2]

theorem transfer_err (who : AccountId) (id : Identifier) (amount : Nat) (to_ : AccountId)
    (st st' : State) (e : Err)
    (h : transfer_shares_to_account who id amount to_ st = (some e, st')) : st' = st := by
  simp only [transfer_shares_to_account] at h
  split at h
  · simp_all
  · split at h <;> simp_all

theorem claim_eq_no_asset (who : AccountId) (id : Identifier) (st : State)
    (h : get_main_owner_by_asset st id = none) :
    claim_onwership who id st = (some Err.AssetDoesNotExist, st) := by
  simp only [claim_onwership, h]

theorem claim_eq_already (who : AccountId) (id : Identifier) (st : State)
    (h : get_main_owner_by_asset st id = some who) :
    claim_onwership who id st = (some Err.AlreadyMainOnwer, st) := by
  simp only [claim_onwership, h]
  simp

theorem claim_eq_no_record (who ow : AccountId) (id : Identifier) (st : State)
    (h : get_main_owner_by_asset st id = some ow) (hne : ow ≠ who)
    (h2 : getMeta st id who = none) :
    claim_onwership who id st = (some Err.NotEnoughShares, st) := by
  simp only [claim_onwership, h, h2]
  simp [hne]

theorem claim_eq_low (who ow : AccountId) (id : Identifier) (st : State) (m : MetaData)
    (h : get_main_owner_by_asset st id = some ow) (hne : ow ≠ who)
    (h2 : getMeta st id who = some m) (h3 : m.shares ≤ 50) :
    claim_onwership who id st = (some Err.NotEnoughShares, st) := by
  simp only [claim_onwership, h, h2]
  simp [hne, Nat.not_lt.mpr h3]

theorem claim_eq_succ (who ow : AccountId) (id : Identifier) (st : State) (m : MetaData)
    (h : get_main_owner_by_asset st id = some ow) (hne : ow ≠ who)
    (h2 : getMeta st id who = some m) (h3 : 50 < m.shares) :
    claim_onwership who id st = (none, set_main_owner who id st) := by
  simp only [claim_onwership, h, h2]
  simp [hne, h3]

theorem claim_err (who : AccountId) (id : Identifier) (st st' : State) (e : Err)
    (h : claim_onwership who id st = (some e, st')) : st' = st := by
  simp only [claim_onwership] at h
  split at h
  · simp_all
  · split at h
    · simp_all
    · split at h
      · simp_all
      · split at h <;> simp_all

theorem buyG_err (gw : Gateway) (who : AccountId) (id : Identifier) (s a : Nat)
    (from_ : AccountId) (st st' : State) (e : Err)
    (h : buy_sharesG gw who id s a from_ st = (some e, st')) : st' = st := by
  simp only [buy_sharesG] at h
  repeat' split at h
  all_goals simp_all

theorem buyG_succ_inv (gw : Gateway) (who : AccountId) (id : Identifier) (s a : Nat)
    (from_ : AccountId) (st st' : State)
    (h : buy_sharesG gw who id s a from_ st = (none, st')) :
    who ≠ from_ ∧ is_owner_of from_ id st = true ∧
    ∃ fm, getMeta st id from_ = some fm ∧ s ≤ fm.shares ∧ s ≤ fm.offers ∧
      satMul fm.price s ≤ a ∧ a ≤ U64MAX ∧ a ≤ free_balance st who ∧
      ∃ stg, gw who from_ a st = some stg ∧
        st' = setMeta (setMeta stg id who
            (match getMeta st id who with
             | none => ⟨0, s, 0⟩
             | some old => ⟨0, satAdd old.shares s, 0⟩)) id from_
          ⟨satSub fm.offers s, satSub fm.shares s, fm.price⟩ := by
  simp only [buy_sharesG] at h
  split at h
  · simp_all
  rename_i hne
  split at h
  case isFalse => simp_all
  rename_i howner
  split at h
  case h_1 => simp_all
  rename_i fm hmeta
  split at h
  case isFalse => simp_all
  rename_i h1
  split at h
  case h_1 => simp_all
  rename_i pa heq
  have hconv : a ≤ U64MAX ∧ pa = a := by
    by_cases hc : a ≤ U64MAX
    · rw [balance_to_u64_option, if_pos hc] at heq
      cases heq
      exact ⟨hc, rfl⟩
    · rw [balance_to_u64_option, if_neg hc] at heq
      cases heq
  obtain ⟨hc, rfl⟩ := hconv
  split at h
  case isFalse => simp_all
  rename_i h2
  split at h
  case isFalse => simp_all
  rename_i h3
  split at h
  case isFalse => simp_all
  rename_i h4
  split at h
  case h_1 => simp_all
  rename_i stg hgw
  simp only [Prod.mk.injEq] at h
  exact ⟨hne, howner, fm, hmeta, h1, h3, h2, hc, h4, stg, hgw, h.2.symm⟩

/-! ### Share-sum lemmas -/

theorem sumShares_nil (id : Identifier) : sumShares [] id = 0 := rfl

theorem sumShares_cons (e : (Identifier × AccountId) × MetaData)
    (recs : List ((Identifier × AccountId) × MetaData)) (id : Identifier) :
    sumShares (e :: recs) id = (if e.1.1 = id then e.2.shares else 0) + sumShares recs id := by
  by_cases h : e.1.1 = id <;> simp [sumShares, List.filter_cons, h]

theorem sumShares_setA_ne (recs : List ((Identifier × AccountId) × MetaData))
    (k : Identifier × AccountId) (m : MetaData) (id : Identifier) (h : k.1 ≠ id) :
    sumShares (setA recs k m) id = sumShares recs id := by
  induction recs with
  | nil => simp [setA, sumShares_cons, sumShares_nil, h]
  | cons e es ih =>
      by_cases hek : e.1 = k
      · simp [setA, hek, sumShares_cons, if_neg h]
      · simp [setA, hek, sumShares_cons, ih]

theorem sumShares_setA_absent (recs : List ((Identifier × AccountId) × MetaData))
    (k : Identifier × AccountId) (m : MetaData) (id : Identifier)
    (h : lookupA recs k = none) :
    sumShares (setA recs k m) id = sumShares recs id + (if k.1 = id then m.shares else 0) := by
  induction recs with
  | nil => simp [setA, sumShares_cons, sumShares_nil, Nat.add_comm]
  | cons e es ih =>
      simp only [lookupA] at h
      by_cases hek : e.1 = k
      · simp [hek] at h
      · simp only [hek, if_false] at h
        simp [setA, hek, sumShares_cons, ih h]
        omega

theorem sumShares_setA_present (recs : List ((Identifier × AccountId) × MetaData))
    (k : Identifier × AccountId) (m mOld : MetaData) (id : Identifier)
    (h : lookupA recs k = some mOld) :
    sumShares (setA recs k m) id + (if k.1 = id then mOld.shares else 0)
      = sumShares recs id + (if k.1 = id then m.shares else 0) := by
  induction recs with
  | nil => simp [lookupA] at h
  | cons e es ih =>
      simp only [lookupA] at h
      by_cases hek : e.1 = k
      · simp only [hek, if_true] at h
        cases h
        simp [setA, hek, sumShares_cons]
        omega
      · simp only [hek, if_false] at h
        have := ih h
        simp [setA, hek, sumShares_cons]
        omega

theorem lookupA_shares_le_sumShares (recs : List ((Identifier × AccountId) × MetaData))
    (k : Identifier × AccountId) (m : MetaData) (id : Identifier)
    (h : lookupA recs k = some m) (hid : k.1 = id) : m.shares ≤ sumShares recs id := by
  induction recs with
  | nil => simp [lookupA] at h
  | cons e es ih =>
      simp only [lookupA] at h
      by_cases hek : e.1 = k
      · simp only [hek, if_true] at h
        cases h
        simp [sumShares_cons, hek, hid]
      · simp only [hek, if_false] at h
        have := ih h
        simp [sumShares_cons]
        omega

theorem lookupA_eq_none_of_no_key (recs : List ((Identifier × AccountId) × MetaData))
    (id : Identifier) (w : AccountId) (h : ∀ e ∈ recs, e.1.1 ≠ id) :
    lookupA recs (id, w) = none := by
  induction recs with
  | nil => rfl
  | cons e es ih =>
      have he : e.1.1 ≠ id := h e (List.mem_cons_self e es)
      have hne : e.1 ≠ (id, w) := fun hk => he (by rw [hk])
      simp only [lookupA, hne, if_false]
      exact ih fun x hx => h x (List.mem_cons_of_mem e hx)

theorem sumShares_eq_zero_of_no_key (recs : List ((Identifier × AccountId) × MetaData))
    (id : Identifier) (h : ∀ e ∈ recs, e.1.1 ≠ id) : sumShares recs id = 0 := by
  induction recs with
  | nil => rfl
  | cons e es ih =>
      have he : e.1.1 ≠ id := h e (List.mem_cons_self e es)
      rw [sumShares_cons, if_neg he, ih fun x hx => h x (List.mem_cons_of_mem e hx)]

theorem mem_setA {α β : Type} [DecidableEq α] (l : List (α × β)) (k : α) (v : β)
    (e : α × β) (h : e ∈ setA l k v) : e ∈ l ∨ e = (k, v) := by
  induction l with
  | nil => simp [setA] at h; exact Or.inr h
  | cons e' es ih =>
      by_cases hek : e'.1 = k
      · simp only [setA, hek, if_true] at h
        rcases List.mem_cons.mp h with h1 | h1
        · exact Or.inr h1
        · exact Or.inl (List.mem_cons_of_mem e' h1)
      · simp only [setA, hek, if_false] at h
        rcases List.mem_cons.mp h with h1 | h1
        · exact Or.inl (h1 ▸ List.mem_cons_self e' es)
        · rcases ih h1 with h2 | h2
          · exact Or.inl (List.mem_cons_of_mem e' h2)
          · exact Or.inr h2

theorem getMeta_eq (st : State) (id : Identifier) (who : AccountId) :
    getMeta st id who = lookupA st.records (id, who) := rfl

theorem setMeta_records (st : State) (id : Identifier) (who : AccountId) (m : MetaData) :
    (setMeta st id who m).records = setA st.records (id, who) m := rfl

theorem satAdd_eq_add (a b : Nat) (h : a + b ≤ U64MAX) : satAdd a b = a + b :=
  min_eq_left h

theorem sumShares_setA_absent_self (recs : List ((Identifier × AccountId) × MetaData))
    (k : Identifier × AccountId) (m : MetaData) (id : Identifier)
    (h : lookupA recs k = none) (hk : k.1 = id) :
    sumShares (setA recs k m) id = sumShares recs id + m.shares := by
  rw [sumShares_setA_absent _ _ m _ h, if_pos hk]

theorem sumShares_setA_present_self (recs : List ((Identifier × AccountId) × MetaData))
    (k : Identifier × AccountId) (m mOld : MetaData) (id : Identifier)
    (h : lookupA recs k = some mOld) (hk : k.1 = id) :
    sumShares (setA recs k m) id + mOld.shares = sumShares recs id + m.shares := by
  have h2 := sumShares_setA_present recs k m mOld id h
  rwa [if_pos hk, if_pos hk] at h2

theorem claim_records (who : AccountId) (id : Identifier) (st : State) :
    ((claim_onwership who id st).2).records = st.records := by
  simp only [claim_onwership]
  repeat' split
  all_goals rfl

theorem create_sum_ne (hash : List Nat → Identifier) (who : AccountId) (data : List Nat)
    (p : Nat) (st : State) (id' : Identifier) (hne : hash data ≠ id') :
    sumShares (create_proportional_asset hash who data p st).2.records id'
      = sumShares st.records id' := by
  rcases hm : getMeta st (hash data) who with _ | m
  · rw [create_eq_absent _ _ _ _ _ hm]
    exact sumShares_setA_ne _ _ _ _ hne
  · rw [create_eq_present _ _ _ _ _ m hm]

theorem create_sum_self (hash : List Nat → Identifier) (who : AccountId) (data : List Nat)
    (p : Nat) (st st' : State)
    (h : create_proportional_asset hash who data p st = (none, st')) :
    sumShares st'.records (hash data) = sumShares st.records (hash data) + 100 := by
  rcases hm : getMeta st (hash data) who with _ | m
  · rw [create_eq_absent _ _ _ _ _ hm] at h
    simp only [Prod.mk.injEq] at h
    rw [← h.2]
    have h2 := sumShares_setA_absent_self st.records (hash data, who) ⟨0, TOTAL_SUPPLY, p⟩
      (hash data) (getMeta_eq st (hash data) who ▸ hm) rfl
    simpa [TOTAL_SUPPLY] using h2
  · rw [create_eq_present _ _ _ _ _ m hm] at h
    simp at h

theorem offer_sum (who : AccountId) (id : Identifier) (s p : Nat) (st : State)
    (id' : Identifier) :
    sumShares (offer_shares who id s p st).2.records id' = sumShares st.records id' := by
  rcases howner : is_owner_of who id st with _ | _
  · rw [offer_eq_not_owner _ _ _ _ _ howner]
  · rcases hm : getMeta st id who with _ | m
    · rw [offer_eq_no_record _ _ _ _ _ howner hm]
    · by_cases hs : s ≤ m.shares
      · rw [offer_eq_succ _ _ _ _ _ m howner hm hs]
        have h2 := sumShares_setA_present st.records (id, who) ⟨s, m.shares, p⟩ m id'
          (getMeta_eq st id who ▸ hm)
        exact Nat.add_right_cancel h2
      · rw [offer_eq_invalid _ _ _ _ _ m howner hm (Nat.not_le.mp hs)]

theorem transfer_sum (who : AccountId) (id : Identifier) (amount : Nat) (to_ : AccountId)
    (st : State) (id' : Identifier) (hself : ¬(id = id' ∧ to_ = who))
    (hbound : sumShares st.records id' ≤ 100) :
    sumShares (transfer_shares_to_account who id amount to_ st).2.records id'
      = sumShares st.records id' := by
  rcases hm : getMeta st id who with _ | m
  · rw [transfer_eq_no_record _ _ _ _ _ hm]
  · by_cases ha : amount ≤ m.shares
    · by_cases hid : id = id'
      · subst hid
        have hto : to_ ≠ who := fun hh => hself ⟨rfl, hh⟩
        have hkne : ((id, who) : Identifier × AccountId) ≠ (id, to_) := by
          intro hk
          exact hto (congrArg Prod.snd hk).symm
        have hms : m.shares ≤ sumShares st.records id :=
          lookupA_shares_le_sumShares st.records (id, who) m id
            (getMeta_eq st id who ▸ hm) rfl
        rcases ht : getMeta st id to_ with _ | mt
        · rw [transfer_eq_succ_absent _ _ _ _ _ m hm ha ht]
          rw [setMeta_records, setMeta_records]
          have s1 := sumShares_setA_absent_self st.records (id, to_) ⟨0, amount, 0⟩ id
            (getMeta_eq st id to_ ▸ ht) rfl
          have l2 : lookupA (setA st.records (id, to_) ⟨0, amount, 0⟩) (id, who) = some m :=
            (lookupA_setA_ne _ _ _ _ hkne).trans (getMeta_eq st id who ▸ hm)
          have s2 := sumShares_setA_present_self (setA st.records (id, to_) ⟨0, amount, 0⟩)
            (id, who) ⟨m.offers, satSub m.shares amount, m.price⟩ m id l2 rfl
          simp only [satSub] at s1 s2 ⊢
          omega
        · rw [transfer_eq_succ_present _ _ _ _ _ m mt hm ha ht]
          rw [setMeta_records, setMeta_records]
          have hmt : mt.shares ≤ sumShares st.records id :=
            lookupA_shares_le_sumShares st.records (id, to_) mt id
              (getMeta_eq st id to_ ▸ ht) rfl
          have hadd : satAdd mt.shares amount = mt.shares + amount := by
            apply satAdd_eq_add
            have hU : (100 : Nat) + 100 ≤ U64MAX := by decide
            omega
          have s1 := sumShares_setA_present_self st.records (id, to_)
            ⟨mt.offers, satAdd mt.shares amount, mt.price⟩ mt id
            (getMeta_eq st id to_ ▸ ht) rfl
          have l2 : lookupA (setA st.records (id, to_)
              ⟨mt.offers, satAdd mt.shares amount, mt.price⟩) (id, who) = some m :=
            (lookupA_setA_ne _ _ _ _ hkne).trans (getMeta_eq st id who ▸ hm)
          have s2 := sumShares_setA_present_self (setA st.records (id, to_)
              ⟨mt.offers, satAdd mt.shares amount, mt.price⟩)
            (id, who) ⟨m.offers, satSub m.shares amount, m.price⟩ m id l2 rfl
          simp only [satSub, hadd] at s1 s2 ⊢
          omega
      · rcases ht : getMeta st id to_ with _ | mt
        · rw [transfer_eq_succ_absent _ _ _ _ _ m hm ha ht]
          rw [setMeta_records, setMeta_records]
          rw [sumShares_setA_ne _ _ _ _ hid, sumShares_setA_ne _ _ _ _ hid]
        · rw [transfer_eq_succ_present _ _ _ _ _ m mt hm ha ht]
          rw [setMeta_records, setMeta_records]
          rw [sumShares_setA_ne _ _ _ _ hid, sumShares_setA_ne _ _ _ _ hid]
    · rw [transfer_eq_toomuch _ _ _ _ _ m hm (Nat.not_le.mp ha)]

theorem buy_sum (who : AccountId) (id : Identifier) (s a : Nat) (from_ : AccountId)
    (st : State) (id' : Identifier) (hbound : sumShares st.records id' ≤ 100) :
    sumShares (buy_shares who id s a from_ st).2.records id' = sumShares st.records id' := by
  rcases hres : buy_shares who id s a from_ st with ⟨err, st'⟩
  rcases err with _ | e
  · obtain ⟨hne, howner, fm, hmeta, h1, h3, h2, hc, h4, stg, hgw, hst'⟩ :=
      buyG_succ_inv currencyTransfer who id s a from_ st st' hres
    obtain ⟨hrec, hmain⟩ := currencyTransfer_some who from_ a st stg hgw
    show sumShares st'.records id' = sumShares st.records id'
    subst hst'
    rw [setMeta_records, setMeta_records, hrec]
    by_cases hid : id = id'
    · subst hid
      have hkne : ((id, from_) : Identifier × AccountId) ≠ (id, who) := by
        intro hk
        exact hne (congrArg Prod.snd hk).symm
      have hfs : fm.shares ≤ sumShares st.records id :=
        lookupA_shares_le_sumShares st.records (id, from_) fm id
          (getMeta_eq st id from_ ▸ hmeta) rfl
      rcases hb : getMeta st id who with _ | old
      · simp only [hb]
        have s1 := sumShares_setA_absent_self st.records (id, who) ⟨0, s, 0⟩ id
          (getMeta_eq st id who ▸ hb) rfl
        have l2 : lookupA (setA st.records (id, who) ⟨0, s, 0⟩) (id, from_) = some fm :=
          (lookupA_setA_ne _ _ _ _ hkne).trans (getMeta_eq st id from_ ▸ hmeta)
        have s2 := sumShares_setA_present_self (setA st.records (id, who) ⟨0, s, 0⟩)
          (id, from_) ⟨satSub fm.offers s, satSub fm.shares s, fm.price⟩ fm id l2 rfl
        simp only [satSub] at s1 s2 ⊢
        omega
      · simp only [hb]
        have hold : old.shares ≤ sumShares st.records id :=
          lookupA_shares_le_sumShares st.records (id, who) old id
            (getMeta_eq st id who ▸ hb) rfl
        have hadd : satAdd old.shares s = old.shares + s := by
          apply satAdd_eq_add
          have hU : (100 : Nat) + 100 ≤ U64MAX := by decide
          omega
        have s1 := sumShares_setA_present_self st.records (id, who)
          ⟨0, satAdd old.shares s, 0⟩ old id (getMeta_eq st id who ▸ hb) rfl
        have l2 : lookupA (setA st.records (id, who) ⟨0, satAdd old.shares s, 0⟩)
            (id, from_) = some fm :=
          (lookupA_setA_ne _ _ _ _ hkne).trans (getMeta_eq st id from_ ▸ hmeta)
        have s2 := sumShares_setA_present_self
          (setA st.records (id, who) ⟨0, satAdd old.shares s, 0⟩)
          (id, from_) ⟨satSub fm.offers s, satSub fm.shares s, fm.price⟩ fm id l2 rfl
        simp only [satSub, hadd] at s1 s2 ⊢
        omega
    · rcases hb : getMeta st id who with _ | old <;>
        simp only [hb] <;>
        rw [sumShares_setA_ne _ _ _ _ hid, sumShares_setA_ne _ _ _ _ hid]
  · have hst := buyG_err currencyTransfer who id s a from_ st st' e hres
    show sumShares st'.records id' = sumShares st.records id'
    rw [hst]

/-- Is this operation a `create` deriving the given identifier? -/
def isCreateFor (hash : List Nat → Identifier) (id : Identifier) : Op → Bool
  | .create _ data _ => hash data == id
  | _ => false

/-- Is this operation a transfer for the given identifier whose recipient is
the caller itself? -/
def isSelfTransferFor (id : Identifier) : Op → Bool
  | .transfer w i _ t => i == id && t == w
  | _ => false

theorem apply_sum_preserved (hash : List Nat → Identifier) (op : Op) (st : State)
    (id : Identifier) (hsum : sumShares st.records id ≤ 100)
    (hnc : isCreateFor hash id op = false)
    (hnt : isSelfTransferFor id op = false) :
    sumShares (apply hash op st).2.records id = sumShares st.records id := by
  cases op with
  | create w d p =>
      simp only [isCreateFor, beq_eq_false_iff_ne, ne_eq] at hnc
      exact create_sum_ne hash w d p st id hnc
  | offer w i s pr => exact offer_sum w i s pr st id
  | transfer w i amt t =>
      refine transfer_sum w i amt t st id ?_ hsum
      rintro ⟨rfl, rfl⟩
      simp [isSelfTransferFor] at hnt
  | buy w i s amt f => exact buy_sum w i s amt f st id hsum
  | claim w i =>
      show sumShares ((claim_onwership w i st).2).records id = _
      rw [claim_records]

/-- No OwnerRecord and no main owner exist yet for the identifier. -/
def noAsset (st : State) (id : Identifier) : Prop :=
  (∀ e ∈ st.records, e.1.1 ≠ id) ∧ lookupA st.mainOwner id = none

theorem noAsset_not_owner (st : State) (id : Identifier) (w : AccountId)
    (h : noAsset st id) : is_owner_of w id st = false := by
  simp [is_owner_of, h.2]

theorem noAsset_setMeta (st : State) (i : Identifier) (w : AccountId) (m : MetaData)
    (id : Identifier) (h : noAsset st id) (hne : i ≠ id) :
    noAsset (setMeta st i w m) id := by
  refine ⟨?_, h.2⟩
  intro e he
  rcases mem_setA _ _ _ _ he with h1 | h1
  · exact h.1 e h1
  · rw [h1]
    exact hne

theorem apply_noAsset_preserved (hash : List Nat → Identifier) (op : Op) (st : State)
    (id : Identifier) (hna : noAsset st id) (hnc : isCreateFor hash id op = false) :
    noAsset (apply hash op st).2 id := by
  cases op with
  | create w d p =>
      simp only [apply]
      simp only [isCreateFor, beq_eq_false_iff_ne, ne_eq] at hnc
      rcases hm : getMeta st (hash d) w with _ | m
      · rw [create_eq_absent _ _ _ _ _ hm]
        have h1 := noAsset_setMeta st (hash d) w ⟨0, TOTAL_SUPPLY, p⟩ id hna hnc
        refine ⟨h1.1, ?_⟩
        show lookupA (setA st.mainOwner (hash d) w) id = none
        rw [lookupA_setA_ne _ _ _ _ (fun hk => hnc hk.symm)]
        exact hna.2
      · rw [create_eq_present _ _ _ _ _ m hm]
        exact hna
  | offer w i s pr =>
      simp only [apply]
      by_cases hi : i = id
      · subst hi
        rw [offer_eq_not_owner _ _ _ _ _ (noAsset_not_owner st i w hna)]
        exact hna
      · rcases how : is_owner_of w i st with _ | _
        · rw [offer_eq_not_owner _ _ _ _ _ how]
          exact hna
        · rcases hm : getMeta st i w with _ | m
          · rw [offer_eq_no_record _ _ _ _ _ how hm]
            exact hna
          · by_cases hs : s ≤ m.shares
            · rw [offer_eq_succ _ _ _ _ _ m how hm hs]
              exact noAsset_setMeta st i w ⟨s, m.shares, pr⟩ id hna hi
            · rw [offer_eq_invalid _ _ _ _ _ m how hm (Nat.not_le.mp hs)]
              exact hna
  | transfer w i amt t =>
      simp only [apply]
      by_cases hi : i = id
      · subst hi
        rw [transfer_eq_no_record _ _ _ _ _ (lookupA_eq_none_of_no_key st.records i w hna.1)]
        exact hna
      · rcases hm : getMeta st i w with _ | m
        · rw [transfer_eq_no_record _ _ _ _ _ hm]
          exact hna
        · by_cases ha : amt ≤ m.shares
          · rcases ht : getMeta st i t with _ | mt
            · rw [transfer_eq_succ_absent _ _ _ _ _ m hm ha ht]
              exact noAsset_setMeta _ i w _ id
                (noAsset_setMeta st i t _ id hna hi) hi
            · rw [transfer_eq_succ_present _ _ _ _ _ m mt hm ha ht]
              exact noAsset_setMeta _ i w _ id
                (noAsset_setMeta st i t _ id hna hi) hi
          · rw [transfer_eq_toomuch _ _ _ _ _ m hm (Nat.not_le.mp ha)]
            exact hna
  | buy w i s amt f =>
      simp only [apply]
      rcases hres : buy_shares w i s amt f st with ⟨err, st'⟩
      rcases err with _ | e
      · obtain ⟨hne, howner, fm, hmeta, h1, h3, h2, hc, h4, stg, hgw, hst'⟩ :=
          buyG_succ_inv currencyTransfer w i s amt f st st' hres
        obtain ⟨hrec, hmain⟩ := currencyTransfer_some w f amt st stg hgw
        have hi : i ≠ id := by
          intro hk
          subst hk
          rw [noAsset_not_owner st i f hna] at howner
          cases howner
        show noAsset st' id
        have hnag : noAsset stg id := ⟨fun e he => hna.1 e (hrec ▸ he), hmain ▸ hna.2⟩
        subst hst'
        exact noAsset_setMeta _ i f _ id (noAsset_setMeta stg i w _ id hnag hi) hi
      · have hst := buyG_err currencyTransfer w i s amt f st st' e hres
        show noAsset st' id
        rw [hst]
        exact hna
  | claim w i =>
      simp only [apply]
      by_cases hi : i = id
      · subst hi
        rw [claim_eq_no_asset _ _ _ hna.2]
        exact hna
      · rcases how : get_main_owner_by_asset st i with _ | ow
        · rw [claim_eq_no_asset _ _ _ how]
          exact hna
        · by_cases hw : ow = w
          · subst hw
            rw [claim_eq_already _ _ _ how]
            exact hna
          · rcases hm : getMeta st i w with _ | m
            · rw [claim_eq_no_record _ _ _ _ how hw hm]
              exact hna
            · by_cases hs : 50 < m.shares
              · rw [claim_eq_succ _ _ _ _ m how hw hm hs]
                refine ⟨hna.1, ?_⟩
                show lookupA (setA st.mainOwner i w) id = none
                rw [lookupA_setA_ne _ _ _ _ (fun hk => hi hk.symm)]
                exact hna.2
              · rw [claim_eq_low _ _ _ _ m how hw hm (Nat.not_lt.mp hs)]
                exact hna

theorem run_sum_preserved (hash : List Nat → Identifier) (ops : List Op) (st : State)
    (id : Identifier) (hsum : sumShares st.records id = 100)
    (hops : ∀ op ∈ ops, isCreateFor hash id op = false ∧ isSelfTransferFor id op = false) :
    sumShares (run hash st ops).records id = 100 := by
  induction ops generalizing st with
  | nil => exact hsum
  | cons op ops ih =>
      show sumShares (run hash (apply hash op st).2 ops).records id = 100
      apply ih
      · rw [apply_sum_preserved hash op st id (Nat.le_of_eq hsum)
          (hops op (List.mem_cons_self op ops)).1 (hops op (List.mem_cons_self op ops)).2]
        exact hsum
      · exact fun o ho => hops o (List.mem_cons_of_mem op ho)

theorem run_noAsset_preserved (hash : List Nat → Identifier) (ops : List Op) (st : State)
    (id : Identifier) (hna : noAsset st id)
    (hops : ∀ op ∈ ops, isCreateFor hash id op = false) :
    noAsset (run hash st ops) id := by
  induction ops generalizing st with
  | nil => exact hna
  | cons op ops ih =>
      show noAsset (run hash (apply hash op st).2 ops) id
      apply ih
      · exact apply_noAsset_preserved hash op st id hna (hops op (List.mem_cons_self op ops))
      · exact fun o ho => hops o (List.mem_cons_of_mem op ho)

/-! ### Claims -/

/-- Claim C3: starting from empty record state, the sequence
create(1, payload, price 10); offer(1, id, 5, 20); transfer(1, id, 50, 2);
buy(3, id, 2, 40, 1) all succeeds, with the intermediate owner records
`{100,0,10}`, `{100,5,20}`, then owner `{50,5,20}` / account 2 `{50,0,0}`, and
finally owner `{48,3,20}`, account 2 `{50,0,0}`, account 3 `{2,0,0}`, while 40
currency units move from account 3's balance to the owner's. -/
theorem scenario_create_offer_transfer_buy :
    (create_proportional_asset hashConst 1 [] 10 scenario0).1 = none ∧
    getMeta scenario1 0 1 = some ⟨0, 100, 10⟩ ∧
    (offer_shares 1 0 5 20 scenario1).1 = none ∧
    getMeta scenario2 0 1 = some ⟨5, 100, 20⟩ ∧
    (transfer_shares_to_account 1 0 50 2 scenario2).1 = none ∧
    getMeta scenario3 0 1 = some ⟨5, 50, 20⟩ ∧
    getMeta scenario3 0 2 = some ⟨0, 50, 0⟩ ∧
    (buy_shares 3 0 2 40 1 scenario3).1 = none ∧
    getMeta scenario4 0 1 = some ⟨3, 48, 20⟩ ∧
    getMeta scenario4 0 2 = some ⟨0, 50, 0⟩ ∧
    getMeta scenario4 0 3 = some ⟨0, 2, 0⟩ ∧
    free_balance scenario3 3 = 100 ∧ free_balance scenario4 3 = 60 ∧
    free_balance scenario3 1 = 50 ∧ free_balance scenario4 1 = 90 := by
  decide

/-- Claim C4: claim succeeds exactly when the asset has a main owner different
from the caller and the caller holds strictly more than 50 shares; the failure
cases are AssetDoesNotExist, AlreadyMainOnwer and NotEnoughShares, checked in
that order, and on success the main owner becomes the caller. -/
theorem claim_iff_spec (st : State) (who : AccountId) (id : Identifier) :
    ((claim_onwership who id st).1 = none ↔
      ∃ ow, get_main_owner_by_asset st id = some ow ∧ ow ≠ who ∧
        ∃ m, getMeta st id who = some m ∧ 50 < m.shares) ∧
    (get_main_owner_by_asset st id = none →
      claim_onwership who id st = (some Err.AssetDoesNotExist, st)) ∧
    (get_main_owner_by_asset st id = some who →
      claim_onwership who id st = (some Err.AlreadyMainOnwer, st)) ∧
    (∀ ow, get_main_owner_by_asset st id = some ow → ow ≠ who →
      (getMeta st id who = none ∨ ∃ m, getMeta st id who = some m ∧ m.shares ≤ 50) →
      claim_onwership who id st = (some Err.NotEnoughShares, st)) ∧
    ((claim_onwership who id st).1 = none →
      get_main_owner_by_asset (claim_onwership who id st).2 id = some who) := by
  have hiff : (claim_onwership who id st).1 = none ↔
      ∃ ow, get_main_owner_by_asset st id = some ow ∧ ow ≠ who ∧
        ∃ m, getMeta st id who = some m ∧ 50 < m.shares := by
    constructor
    · intro h
      rcases how : get_main_owner_by_asset st id with _ | ow
      · rw [claim_eq_no_asset _ _ _ how] at h
        simp at h
      · by_cases hw : ow = who
        · subst hw
          rw [claim_eq_already _ _ _ how] at h
          simp at h
        · rcases hm : getMeta st id who with _ | m
          · rw [claim_eq_no_record _ _ _ _ how hw hm] at h
            simp at h
          · by_cases hs : 50 < m.shares
            · exact ⟨ow, rfl, hw, m, rfl, hs⟩
            · rw [claim_eq_low _ _ _ _ m how hw hm (Nat.not_lt.mp hs)] at h
              simp at h
    · rintro ⟨ow, how, hw, m, hm, hs⟩
      rw [claim_eq_succ _ _ _ _ m how hw hm hs]
  refine ⟨hiff, fun h => claim_eq_no_asset _ _ _ h, fun h => claim_eq_already _ _ _ h,
    ?_, ?_⟩
  · intro ow how hw hcase
    rcases hcase with hm | ⟨m, hm, hs⟩
    · exact claim_eq_no_record _ _ _ _ how hw hm
    · exact claim_eq_low _ _ _ _ m how hw hm hs
  · intro h
    obtain ⟨ow, how, hw, m, hm, hs⟩ := hiff.mp h
    rw [claim_eq_succ _ _ _ _ m how hw hm hs]
    exact lookupA_setA_self _ _ _

/-- Witness for C4: in a state where account 1 is main owner and account 2
holds 51 shares, account 2's claim succeeds. -/
theorem claim_iff_spec_witness : (claim_onwership 2 0 stClaim).1 = none :=
  (claim_iff_spec stClaim 2 0).1.mpr ⟨1, rfl, by decide, ⟨0, 51, 0⟩, rfl, by decide⟩

theorem getMeta_set_main_owner (st : State) (w : AccountId) (i id : Identifier)
    (who : AccountId) : getMeta (set_main_owner w i st) id who = getMeta st id who := rfl

/-- Claim C8: the duplicate check of create is scoped to (identifier, caller):
it fails with AssetAlreadyExists exactly when the caller already has a record
for the derived identifier, a repeated create by the same caller fails, and a
create by a different caller without a record succeeds. -/
theorem create_duplicate_scope (hash : List Nat → Identifier) (st : State)
    (who : AccountId) (data : List Nat) (p : Nat) :
    (((create_proportional_asset hash who data p st).1 = some Err.AssetAlreadyExists) ↔
      (getMeta st (hash data) who).isSome = true) ∧
    (∀ st', create_proportional_asset hash who data p st = (none, st') →
      ∀ p2, (create_proportional_asset hash who data p2 st').1 = some Err.AssetAlreadyExists) ∧
    (∀ who2 st', who2 ≠ who → getMeta st (hash data) who2 = none →
      create_proportional_asset hash who data p st = (none, st') →
      ∀ p2, (create_proportional_asset hash who2 data p2 st').1 = none) := by
  have hsucc : ∀ st', create_proportional_asset hash who data p st = (none, st') →
      st' = set_main_owner who (hash data) (setMeta st (hash data) who ⟨0, TOTAL_SUPPLY, p⟩) := by
    intro st' h
    rcases hm : getMeta st (hash data) who with _ | m
    · rw [create_eq_absent _ _ _ _ _ hm] at h
      simp only [Prod.mk.injEq, true_and] at h
      exact h.symm
    · rw [create_eq_present _ _ _ _ _ m hm] at h
      simp at h
  refine ⟨?_, ?_, ?_⟩
  · rcases hm : getMeta st (hash data) who with _ | m
    · rw [create_eq_absent _ _ _ _ _ hm]
      simp
    · rw [create_eq_present _ _ _ _ _ m hm]
      simp
  · intro st' h p2
    have hst' := hsucc st' h
    have hrec : getMeta st' (hash data) who = some ⟨0, TOTAL_SUPPLY, p⟩ := by
      rw [hst', getMeta_set_main_owner]
      exact getMeta_setMeta_self _ _ _ _
    rw [create_eq_present _ _ _ _ _ _ hrec]
  · intro who2 st' hne habs h p2
    have hst' := hsucc st' h
    have hrec : getMeta st' (hash data) who2 = none := by
      rw [hst', getMeta_set_main_owner]
      rw [getMeta_setMeta_ne _ _ _ _ _ _ (fun hk => hne (congrArg Prod.snd hk))]
      exact habs
    rw [create_eq_absent _ _ _ _ _ hrec]

/-- Witness for C8: creating the same payload twice with account 1 fails the
second time with AssetAlreadyExists. -/
theorem create_duplicate_scope_witness :
    (create_proportional_asset hashConst 1 [] 0
      (create_proportional_asset hashConst 1 [] 0 State.empty).2).1
      = some Err.AssetAlreadyExists :=
  (create_duplicate_scope hashConst State.empty 1 [] 0).2.1 _ (by decide) 0

/-- Claim C9: from a state with no record at (hash(payload), caller), a
successful create writes the record {shares 100, offers 0, price p} and makes
the caller the main owner of hash(payload). -/
theorem create_round_trip (hash : List Nat → Identifier) (st st' : State)
    (who : AccountId) (data : List Nat) (p : Nat)
    (habs : getMeta st (hash data) who = none)
    (hcr : create_proportional_asset hash who data p st = (none, st')) :
    getMeta st' (hash data) who = some ⟨0, 100, p⟩ ∧
    get_main_owner_by_asset st' (hash data) = some who := by
  rw [create_eq_absent _ _ _ _ _ habs] at hcr
  simp only [Prod.mk.injEq, true_and] at hcr
  rw [← hcr]
  constructor
  · rw [getMeta_set_main_owner]
    exact getMeta_setMeta_self _ _ _ _
  · exact lookupA_setA_self _ _ _

/-- Witness for C9: creating with price 10 from the empty state yields the
record {offers 0, shares 100, price 10} and main ownership. -/
theorem create_round_trip_witness :
    getMeta (create_proportional_asset hashConst 1 [] 10 State.empty).2 0 1
      = some ⟨0, 100, 10⟩ ∧
    get_main_owner_by_asset (create_proportional_asset hashConst 1 [] 10 State.empty).2 0
      = some 1 :=
  create_round_trip hashConst State.empty _ 1 [] 10 (by decide) (by decide)

/-- Counterexample for C1: in `stBuyer` the buyer (account 1) already holds
the record {offers 1, shares 1, price 5}; the buy succeeds and leaves the
buyer with {offers 0, shares 2, price 0}: the offers and price are reset to
zero, not left untouched. -/
theorem buy_keeps_offers_counterexample :
    getMeta stBuyer 0 1 = some ⟨1, 1, 5⟩ ∧
    (buy_shares 1 0 1 0 2 stBuyer).1 = none ∧
    getMeta (buy_shares 1 0 1 0 2 stBuyer).2 0 1 = some ⟨0, 2, 0⟩ ∧
    getMeta (buy_shares 1 0 1 0 2 stBuyer).2 0 1 ≠ some ⟨1, 2, 5⟩ := by
  decide

/-- Claim C1 (amended): when the buyer already has a record with shares m, a
successful buy sets the buyer's record to {shares: satAdd m.shares sharesToBuy,
offers: 0, price: 0} — the shares are added saturating, but the buyer's offers
and price are reset to zero rather than left untouched. -/
theorem buy_updates_buyer_record (who from_ : AccountId) (id : Identifier) (s a : Nat)
    (st st' : State) (m : MetaData) (hm : getMeta st id who = some m)
    (h : buy_shares who id s a from_ st = (none, st')) :
    getMeta st' id who = some ⟨0, satAdd m.shares s, 0⟩ := by
  obtain ⟨hne, howner, fm, hmeta, h1, h3, h2, hc, h4, stg, hgw, hst'⟩ :=
    buyG_succ_inv currencyTransfer who id s a from_ st st' h
  subst hst'
  rw [getMeta_setMeta_ne _ _ _ _ _ _ (fun hk => hne (congrArg Prod.snd hk)),
    getMeta_setMeta_self]
  simp only [hm]

/-- Witness for C1 (amended): the buy in `stBuyer` turns the buyer's record
{offers 1, shares 1, price 5} into {offers 0, shares 2, price 0}. -/
theorem buy_updates_buyer_record_witness :
    getMeta (buy_shares 1 0 1 0 2 stBuyer).2 0 1 = some ⟨0, satAdd 1 1, 0⟩ :=
  buy_updates_buyer_record 1 2 0 1 0 stBuyer _ ⟨1, 1, 5⟩ (by decide) (by decide)

/-- Counterexample for C6: in `stNotOwner` account 1 has a record of 10 shares
but account 2 is the main owner; offering 11 > 10 shares fails with
NotMainOwner, not InvalidOffers. -/
theorem offer_invalid_counterexample :
    getMeta stNotOwner 0 1 = some ⟨0, 10, 0⟩ ∧ (10 : Nat) < 11 ∧
    offer_shares 1 0 11 7 stNotOwner = (some Err.NotMainOwner, stNotOwner) ∧
    Err.NotMainOwner ≠ Err.InvalidOffers := by
  decide

/-- Claim C6 (amended): for a caller who is the main owner of the asset and
has a record: the offer fails with InvalidOffers when sharesToOffer exceeds
the record's shares; on success the record's offers are overwritten to exactly
sharesToOffer and the price to sharePrice with shares unchanged, so a
successful offer never leaves offers above the shares at call time. -/
theorem offer_spec (who : AccountId) (id : Identifier) (s p : Nat) (st : State)
    (m : MetaData) (hown : is_owner_of who id st = true)
    (hm : getMeta st id who = some m) :
    (m.shares < s → offer_shares who id s p st = (some Err.InvalidOffers, st)) ∧
    (s ≤ m.shares → offer_shares who id s p st = (none, setMeta st id who ⟨s, m.shares, p⟩)) ∧
    (∀ st', offer_shares who id s p st = (none, st') →
      ∃ m', getMeta st' id who = some m' ∧ m'.offers = s ∧ m'.price = p ∧
        m'.shares = m.shares ∧ m'.offers ≤ m'.shares) := by
  refine ⟨fun h => offer_eq_invalid _ _ _ _ _ m hown hm h,
    fun h => offer_eq_succ _ _ _ _ _ m hown hm h, ?_⟩
  intro st' h
  by_cases hs : s ≤ m.shares
  · rw [offer_eq_succ _ _ _ _ _ m hown hm hs] at h
    simp only [Prod.mk.injEq, true_and] at h
    refine ⟨⟨s, m.shares, p⟩, ?_, rfl, rfl, rfl, hs⟩
    rw [← h]
    exact getMeta_setMeta_self _ _ _ _
  · rw [offer_eq_invalid _ _ _ _ _ m hown hm (Nat.not_le.mp hs)] at h
    simp at h

/-- Witness for C6 (amended): the main owner offering 5 of its 10 shares at
price 7 succeeds and overwrites offers and price. -/
theorem offer_spec_witness :
    offer_shares 1 0 5 7 stOwner = (none, setMeta stOwner 0 1 ⟨5, 10, 7⟩) :=
  (offer_spec 1 0 5 7 stOwner ⟨0, 10, 0⟩ (by decide) (by decide)).2.1 (by decide)

/-- Counterexample for C7: in `stOwner` account 1 holds 10 shares; a transfer
of 4 shares to itself succeeds but leaves it with 6 shares — the recipient
update is overwritten, so the recipient's record does not gain the amount. -/
theorem transfer_self_counterexample :
    getMeta stOwner 0 1 = some ⟨0, 10, 0⟩ ∧
    (transfer_shares_to_account 1 0 4 1 stOwner).1 = none ∧
    getMeta (transfer_shares_to_account 1 0 4 1 stOwner).2 0 1 = some ⟨0, 6, 0⟩ ∧
    getMeta (transfer_shares_to_account 1 0 4 1 stOwner).2 0 1 ≠ some ⟨0, 14, 0⟩ := by
  decide

/-- Claim C7 (amended): for a caller with a record m: the transfer fails with
IncorrectSharesSelection iff amount > m.shares; on success with a recipient
other than the caller, the caller's shares decrease by amount (saturating,
offers and price unchanged) and the recipient's record is created as
{shares: amount, offers: 0, price: 0} or has amount added saturating with
offers and price unchanged; on a transfer to the caller itself the recipient
update is overwritten, leaving {shares: m.shares - amount, offers and price
unchanged}. -/
theorem transfer_spec (who : AccountId) (id : Identifier) (amount : Nat)
    (to_ : AccountId) (st : State) (m : MetaData) (hm : getMeta st id who = some m) :
    (m.shares < amount →
      transfer_shares_to_account who id amount to_ st = (some Err.IncorrectSharesSelection, st)) ∧
    ((transfer_shares_to_account who id amount to_ st).1 = none ↔ amount ≤ m.shares) ∧
    (∀ st', amount ≤ m.shares → to_ ≠ who →
      transfer_shares_to_account who id amount to_ st = (none, st') →
      getMeta st' id who = some ⟨m.offers, satSub m.shares amount, m.price⟩ ∧
      getMeta st' id to_ = some (match getMeta st id to_ with
        | none => (⟨0, amount, 0⟩ : MetaData)
        | some mt => ⟨mt.offers, satAdd mt.shares amount, mt.price⟩)) ∧
    (∀ st', amount ≤ m.shares → to_ = who →
      transfer_shares_to_account who id amount to_ st = (none, st') →
      getMeta st' id who = some ⟨m.offers, satSub m.shares amount, m.price⟩) := by
  have hsucc : ∀ st', amount ≤ m.shares →
      transfer_shares_to_account who id amount to_ st = (none, st') →
      st' = setMeta (match getMeta st id to_ with
          | none => setMeta st id to_ ⟨0, amount, 0⟩
          | some mt => setMeta st id to_ ⟨mt.offers, satAdd mt.shares amount, mt.price⟩)
        id who ⟨m.offers, satSub m.shares amount, m.price⟩ := by
    intro st' ha h
    rcases ht : getMeta st id to_ with _ | mt
    · rw [transfer_eq_succ_absent _ _ _ _ _ m hm ha ht] at h
      simp only [Prod.mk.injEq, true_and] at h
      simp only [ht]
      exact h.symm
    · rw [transfer_eq_succ_present _ _ _ _ _ m mt hm ha ht] at h
      simp only [Prod.mk.injEq, true_and] at h
      simp only [ht]
      exact h.symm
  refine ⟨fun h => transfer_eq_toomuch _ _ _ _ _ m hm h, ?_, ?_, ?_⟩
  · constructor
    · intro h
      by_contra ha
      rw [transfer_eq_toomuch _ _ _ _ _ m hm (Nat.not_le.mp ha)] at h
      simp at h
    · intro ha
      rcases ht : getMeta st id to_ with _ | mt
      · rw [transfer_eq_succ_absent _ _ _ _ _ m hm ha ht]
      · rw [transfer_eq_succ_present _ _ _ _ _ m mt hm ha ht]
  · intro st' ha hto h
    rw [hsucc st' ha h]
    constructor
    · rcases ht : getMeta st id to_ with _ | mt <;>
        simp only [ht] <;>
        exact getMeta_setMeta_self _ _ _ _
    · have hk : ((id, to_) : Identifier × AccountId) ≠ (id, who) :=
        fun hk => hto (congrArg Prod.snd hk)
      rcases ht : getMeta st id to_ with _ | mt <;>
        simp only [ht] <;>
        rw [getMeta_setMeta_ne _ _ _ _ _ _ hk, getMeta_setMeta_self]
  · intro st' ha hto h
    rw [hsucc st' ha h]
    exact getMeta_setMeta_self _ _ _ _

/-- Witness for C7 (amended): transferring 4 of 10 shares from account 1 to
account 2 leaves account 1 with 6 shares and creates account 2's record with
4 shares. -/
theorem transfer_spec_witness :
    getMeta (transfer_shares_to_account 1 0 4 2 stOwner).2 0 1 = some ⟨0, 6, 0⟩ ∧
    getMeta (transfer_shares_to_account 1 0 4 2 stOwner).2 0 2 = some ⟨0, 4, 0⟩ :=
  (transfer_spec 1 0 4 2 stOwner ⟨0, 10, 0⟩ (by decide)).2.2.1 _ (by decide) (by decide)
    (by decide)

/-- Counterexample for C2: after a successful create by account 1, a second
create of the same payload by account 2 is itself a reachable operation and
raises the share sum for the identifier to 200, not 100. -/
theorem share_sum_counterexample :
    (create_proportional_asset hashConst 1 [] 0 State.empty).1 = none ∧
    sumShares (run hashConst (create_proportional_asset hashConst 1 [] 0 State.empty).2
      [Op.create 2 [] 0]).records 0 = 200 ∧
    sumShares (run hashConst (create_proportional_asset hashConst 1 [] 0 State.empty).2
      [Op.create 2 [] 0]).records 0 ≠ 100 := by
  decide

/-- Claim C2 (amended): starting from the empty state, after a successful
create for an identifier the sum of shares over all OwnerRecords of that
identifier is exactly 100 in every reachable state, provided the subsequent
operations contain no further create deriving the same identifier and no
transfer for that identifier whose recipient equals its caller (a second
successful create adds another 100, and a successful self-transfer destroys
the transferred amount); and before any create for that identifier the sum
is 0. -/
theorem create_share_sum_invariant (hash : List Nat → Identifier) (who : AccountId)
    (data : List Nat) (p : Nat) (st1 : State) (ops ops0 : List Op)
    (hcr : create_proportional_asset hash who data p State.empty = (none, st1))
    (hops : ∀ op ∈ ops, isCreateFor hash (hash data) op = false ∧
      isSelfTransferFor (hash data) op = false)
    (hops0 : ∀ op ∈ ops0, isCreateFor hash (hash data) op = false) :
    sumShares (run hash st1 ops).records (hash data) = 100 ∧
    sumShares (run hash State.empty ops0).records (hash data) = 0 := by
  constructor
  · refine run_sum_preserved hash ops st1 (hash data) ?_ hops
    have h100 := create_sum_self hash who data p State.empty st1 hcr
    rw [h100]
    rfl
  · have hna : noAsset State.empty (hash data) :=
      ⟨fun e he => absurd he (List.not_mem_nil e), rfl⟩
    exact sumShares_eq_zero_of_no_key _ _
      (run_noAsset_preserved hash ops0 State.empty (hash data) hna hops0).1

/-- Witness for C2 (amended): after creating with account 1, a transfer of 30
shares to account 2 keeps the sum at 100; and a claim call on the empty state
leaves the sum at 0. -/
theorem create_share_sum_invariant_witness :
    sumShares (run hashConst (create_proportional_asset hashConst 1 [] 0 State.empty).2
      [Op.transfer 1 0 30 2]).records 0 = 100 ∧
    sumShares (run hashConst State.empty [Op.claim 5 0]).records 0 = 0 :=
  create_share_sum_invariant hashConst 1 [] 0 _ [Op.transfer 1 0 30 2] [Op.claim 5 0]
    (by decide) (by decide) (by decide)

/-- Claim C5: buy is all-or-nothing. For any Payment Gateway behaviour, every
failing buy (validation failure or gateway failure) returns the state
unchanged — no record, main-owner or balance mutation; a successful buy
applies exactly the gateway transfer followed by the two record writes, and
with the concrete balance-moving gateway it debits the buyer and credits the
seller by the full amount sent. -/
theorem buy_all_or_nothing (gw : Gateway) (who : AccountId) (id : Identifier)
    (s a : Nat) (from_ : AccountId) (st : State) :
    (∀ e st', buy_sharesG gw who id s a from_ st = (some e, st') → st' = st) ∧
    (∀ st', buy_sharesG gw who id s a from_ st = (none, st') →
      ∃ fm stg, getMeta st id from_ = some fm ∧ gw who from_ a st = some stg ∧
        st' = setMeta (setMeta stg id who
            (match getMeta st id who with
             | none => ⟨0, s, 0⟩
             | some old => ⟨0, satAdd old.shares s, 0⟩)) id from_
          ⟨satSub fm.offers s, satSub fm.shares s, fm.price⟩) ∧
    (∀ st', buy_sharesG currencyTransfer who id s a from_ st = (none, st') →
      free_balance st' who = free_balance st who - a ∧
      free_balance st' from_ = free_balance st from_ + a) := by
  refine ⟨fun e st' h => buyG_err gw who id s a from_ st st' e h, ?_, ?_⟩
  · intro st' h
    obtain ⟨hne, howner, fm, hmeta, h1, h3, h2, hc, h4, stg, hgw, hst'⟩ :=
      buyG_succ_inv gw who id s a from_ st st' h
    exact ⟨fm, stg, hmeta, hgw, hst'⟩
  · intro st' h
    obtain ⟨hne, howner, fm, hmeta, h1, h3, h2, hc, h4, stg, hgw, hst'⟩ :=
      buyG_succ_inv currencyTransfer who id s a from_ st st' h
    have hbal : st'.balances = stg.balances := by
      rw [hst', setMeta_balances, setMeta_balances]
    simp only [currencyTransfer] at hgw
    rw [if_pos h4] at hgw
    cases hgw
    constructor
    · show (lookupA st'.balances who).getD 0 = free_balance st who - a
      rw [hbal]
      show (lookupA (setA (setA st.balances who (free_balance st who - a)) from_ _) who).getD 0
        = free_balance st who - a
      rw [lookupA_setA_ne _ _ _ _ hne, lookupA_setA_self]
      rfl
    · show (lookupA st'.balances from_).getD 0 = free_balance st from_ + a
      rw [hbal]
      show (lookupA (setA (setA st.balances who (free_balance st who - a)) from_ _) from_).getD 0
        = free_balance st from_ + a
      rw [lookupA_setA_self]
      show free_balance { st with balances := setA st.balances who (free_balance st who - a) } from_ + a
        = free_balance st from_ + a
      show (lookupA (setA st.balances who (free_balance st who - a)) from_).getD 0 + a
        = free_balance st from_ + a
      rw [lookupA_setA_ne _ _ _ _ (fun hk => hne hk.symm)]
      rfl

/-- Witness for C5: with an always-failing gateway the buy in `stSeller`
returns the state unchanged; with the real gateway it moves the 40 units from
the buyer to the seller. -/
theorem buy_all_or_nothing_witness :
    (buy_sharesG gwNone 3 0 2 40 2 stSeller).2 = stSeller ∧
    (free_balance (buy_shares 3 0 2 40 2 stSeller).2 3 = free_balance stSeller 3 - 40 ∧
     free_balance (buy_shares 3 0 2 40 2 stSeller).2 2 = free_balance stSeller 2 + 40) :=
  ⟨(buy_all_or_nothing gwNone 3 0 2 40 2 stSeller).1 Err.TransferError _ (by decide),
   (buy_all_or_nothing currencyTransfer 3 0 2 40 2 stSeller).2.2 _ (by decide)⟩

/-- Claim C10: the main-owner index is written only by successful create and
claim calls: offer, transfer and buy leave every main-owner entry unchanged
whether they succeed or fail, and failing create and claim calls change
nothing; when a second account successfully repeats a create for an
identifier, the main owner is overwritten to the second creator while the
first creator's 100-share record is untouched. -/
theorem main_owner_writes (st : State) :
    (∀ who id s p, ((offer_shares who id s p st).2).mainOwner = st.mainOwner) ∧
    (∀ who id a t, ((transfer_shares_to_account who id a t st).2).mainOwner = st.mainOwner) ∧
    (∀ who id s a f, ((buy_shares who id s a f st).2).mainOwner = st.mainOwner) ∧
    (∀ hash who data p e st', create_proportional_asset hash who data p st = (some e, st') →
      st'.mainOwner = st.mainOwner) ∧
    (∀ who id e st', claim_onwership who id st = (some e, st') →
      st'.mainOwner = st.mainOwner) ∧
    (∀ hash data who1 who2 p1 p2 st1 st2, who1 ≠ who2 →
      create_proportional_asset hash who1 data p1 st = (none, st1) →
      create_proportional_asset hash who2 data p2 st1 = (none, st2) →
      get_main_owner_by_asset st2 (hash data) = some who2 ∧
      getMeta st2 (hash data) who1 = some ⟨0, 100, p1⟩) := by
  refine ⟨?_, ?_, ?_, ?_, ?_, ?_⟩
  · intro who id s p
    rcases how : is_owner_of who id st with _ | _
    · rw [offer_eq_not_owner _ _ _ _ _ how]
    · rcases hm : getMeta st id who with _ | m
      · rw [offer_eq_no_record _ _ _ _ _ how hm]
      · by_cases hs : s ≤ m.shares
        · rw [offer_eq_succ _ _ _ _ _ m how hm hs]
          rfl
        · rw [offer_eq_invalid _ _ _ _ _ m how hm (Nat.not_le.mp hs)]
  · intro who id a t
    rcases hm : getMeta st id who with _ | m
    · rw [transfer_eq_no_record _ _ _ _ _ hm]
    · by_cases ha : a ≤ m.shares
      · rcases ht : getMeta st id t with _ | mt
        · rw [transfer_eq_succ_absent _ _ _ _ _ m hm ha ht]
          rfl
        · rw [transfer_eq_succ_present _ _ _ _ _ m mt hm ha ht]
          rfl
      · rw [transfer_eq_toomuch _ _ _ _ _ m hm (Nat.not_le.mp ha)]
  · intro who id s a f
    rcases hres : buy_shares who id s a f st with ⟨err, st'⟩
    rcases err with _ | e
    · obtain ⟨hne, howner, fm, hmeta, h1, h3, h2, hc, h4, stg, hgw, hst'⟩ :=
        buyG_succ_inv currencyTransfer who id s a f st st' hres
      obtain ⟨hrec, hmain⟩ := currencyTransfer_some who f a st stg hgw
      show st'.mainOwner = st.mainOwner
      rw [hst']
      exact hmain
    · have hst := buyG_err currencyTransfer who id s a f st st' e hres
      show st'.mainOwner = st.mainOwner
      rw [hst]
  · exact fun hash who data p e st' h => by rw [create_err hash who data p st st' e h]
  · exact fun who id e st' h => by rw [claim_err who id st st' e h]
  · intro hash data who1 who2 p1 p2 st1 st2 hne h1 h2
    have hs1 : ∀ stx whox px st'x,
        create_proportional_asset hash whox data px stx = (none, st'x) →
        st'x = set_main_owner whox (hash data)
          (setMeta stx (hash data) whox ⟨0, TOTAL_SUPPLY, px⟩) := by
      intro stx whox px st'x h
      rcases hm : getMeta stx (hash data) whox with _ | m
      · rw [create_eq_absent _ _ _ _ _ hm] at h
        simp only [Prod.mk.injEq, true_and] at h
        exact h.symm
      · rw [create_eq_present _ _ _ _ _ m hm] at h
        simp at h
    have e1 := hs1 st who1 p1 st1 h1
    have e2 := hs1 st1 who2 p2 st2 h2
    constructor
    · rw [e2]
      exact lookupA_setA_self _ _ _
    · rw [e2, getMeta_set_main_owner,
        getMeta_setMeta_ne _ _ _ _ _ _ (fun hk => hne (congrArg Prod.snd hk)),
        e1, getMeta_set_main_owner, getMeta_setMeta_self]
      rfl

/-- Witness for C10: after accounts 1 and 2 both create the same payload, the
main owner is account 2 while account 1 still holds its 100-share record. -/
theorem main_owner_writes_witness :
    get_main_owner_by_asset
      (create_proportional_asset hashConst 2 [] 7
        (create_proportional_asset hashConst 1 [] 3 State.empty).2).2 0 = some 2 ∧
    getMeta
      (create_proportional_asset hashConst 2 [] 7
        (create_proportional_asset hashConst 1 [] 3 State.empty).2).2 0 1
      = some ⟨0, 100, 3⟩ :=
  (main_owner_writes State.empty).2.2.2.2.2 hashConst [] 1 2 3 7
    (create_proportional_asset hashConst 1 [] 3 State.empty).2
    (create_proportional_asset hashConst 2 [] 7
      (create_proportional_asset hashConst 1 [] 3 State.empty).2).2
    (by decide) (by decide) (by decide)

end PropAsset
